import Mathlib

/-!
Verification of the title-level normalization logic of `scripts/gendoc.py`.

The Python source is shallowly embedded here.  Conventions of the embedding:

* A file is a list of lines.  Python's file iteration yields each line with
  its trailing `"\n"`; since every line of an assembled fragment is
  newline-terminated (the tool itself enforces a double trailing newline on
  every fragment), a line is modelled as its content *without* the trailing
  newline (`Line := List Char`), and the newline is re-attached when lines
  are joined (`joinLines`).  Under this convention Python's
  `len(line)` is `line.length + 1`, so `len(a) > len(b)` coincides with
  `a.length > b.length`, and the regex `^[chars]{3,}$` (whose `$` matches
  just before the final newline) holds exactly when the modelled line has
  length ≥ 3 and consists only of characters of the class.
* Python exceptions are modelled with `Except GendocError`; `TypeError`
  (from `len(None)`), `ValueError` (from `list.index`) and `IndexError`
  are distinguished constructors.
* Python's negative list indexing is modelled by `pyListGet`.
* General recursion over the externally supplied file-reference tree is
  modelled with explicit fuel (`get_rst`); fuel exhaustion is a distinct
  error that no theorem relies on.
-/

deriving instance DecidableEq for Except

namespace Gendoc

/-- A line of text, without its trailing newline character. -/
abbrev Line := List Char

/-- The exceptions the embedded code can raise.  Each constructor carries the
data interpolated into the corresponding Python message.  `reportedLine` is
the number printed in the message (the code prints `i + 1` for the 1-based
enumeration index `i`). -/
inductive GendocError where
  /-- Python `TypeError` from `len(None)` when a title underline is seen
  before any non-title line. -/
  | typeError : GendocError
  /-- Python `ValueError` from `list.index` on a missing element. -/
  | valueError : GendocError
  /-- Python `IndexError` from out-of-range list indexing. -/
  | indexError : GendocError
  /-- "File ... line ... has a title style ... which doesn't match ..."  -/
  | badTitleStyle (filename : String) (reportedLine : Nat)
      (style : Char) (prevStyle : Char) : GendocError
  /-- "Files ... line ... has a sub-title level too low ..." -/
  | titleTooLow (filename : String) (reportedLine : Nat) : GendocError
  /-- Python `IOError`: the named file does not exist. -/
  | missingFile (filename : String) : GendocError
  /-- "File ... should end with TWO new-line characters ..." -/
  | twoNewlines (filename : String) : GendocError
  /-- "The following 'file' entry in this target isn't a string, list or
  dict. ..." -/
  | badEntry (entry : String) : GendocError
  /-- Python `KeyError` (unreachable in `get_rst`: keys come from the dict). -/
  | keyError : GendocError
  /-- "Encountered sub-title line style but we can't go any lower." -/
  | subtitleTooDeep : GendocError
  /-- "Encountered super-title line style but we can't go any higher." -/
  | supertitleTooHigh : GendocError
  /-- "Unknown relative line char ..." -/
  | unknownRelChar (c : Char) : GendocError
  /-- Artifact of the fuel-based embedding of `get_rst`; never relied upon. -/
  | outOfFuel : GendocError
  deriving DecidableEq, Repr

/-- Python `list.index` returning the first index of `c`, `none` when absent
(where Python raises `ValueError`). -/
def pyIndexOf (xs : List Char) (c : Char) : Option Nat :=
  match xs with
  | [] => none
  | x :: rest =>
    if x = c then some 0
    else (pyIndexOf rest c).map (· + 1)

/-- Python list indexing `xs[i]`, including negative indices; `none` where
Python raises `IndexError`. -/
def pyListGet (xs : List Char) (i : Int) : Option Char :=
  if 0 ≤ i then xs.get? i.toNat
  else if 0 ≤ i + xs.length then xs.get? (i + xs.length).toNat
  else none

/-- `title_regex.match(line)`: the line consists of at least three characters,
all drawn from the set of title-style characters.  (The Python regex is
`^[<styles>]{3,}$`, a character *class*: the characters need not be equal.) -/
def isTitleLine (title_styles : List Char) (line : Line) : Bool :=
  decide (3 ≤ line.length) && line.all (fun c => decide (c ∈ title_styles))

/-- The loop state of `load_with_adjusted_titles`:  the accumulated output
lines `rst_lines`, `prev_line_title_level`, `file_offset` and
`prev_non_title_line`. -/
structure ScanState where
  acc : List Line
  prevLevel : Nat
  offset : Option Nat
  prevNT : Option Line
  deriving DecidableEq, Repr

/-- One iteration of the loop body of `load_with_adjusted_titles` for the line
`line` at 1-based position `i`.  Mirrors the Python source line by line; the
warning print for a non-zero first offset only writes to stdout and has no
effect on the returned text, so it does not appear. -/
def processLine (filename : String) (title_level : Int) (title_styles : List Char)
    (i : Nat) (st : ScanState) (line : Line) : Except GendocError ScanState :=
  -- ignore anything which isn't a title
  if ¬ isTitleLine title_styles line then
    .ok { st with acc := st.acc ++ [line], prevNT := some line }
  else
    -- len(prev_non_title_line) > len(line); `len(None)` is a TypeError
    match st.prevNT with
    | none => .error .typeError
    | some prev =>
      if prev.length > line.length then
        .ok { st with acc := st.acc ++ [line], prevNT := some line }
      else
        match line with
        | [] => .error .indexError        -- line[0] (unreachable: length ≥ 3)
        | c :: _ =>
          match pyIndexOf title_styles c with
          | none => .error .valueError    -- title_styles.index (unreachable)
          | some lvl =>
            -- the first title encountered sets the file offset
            let offset := st.offset.getD lvl
            -- the file is allowed to go 1 deeper or any number shallower
            if (st.prevLevel : Int) - (lvl : Int) < -1 then
              match title_styles.get? st.prevLevel with
              | none => .error .indexError
              | some prevStyle =>
                .error (.badTitleStyle filename (i + 1) c prevStyle)
            else
              let adjusted : Int := title_level + (lvl : Int) - (offset : Int)
              if (title_styles.length : Int) ≤ adjusted then
                .error (.titleTooLow filename (i + 1))
              else if adjusted = (lvl : Int) then
                -- no changes required
                .ok { st with acc := st.acc ++ [line],
                              prevLevel := lvl, offset := some offset }
              else
                match pyListGet title_styles adjusted with
                | none => .error .indexError
                | some newC =>
                  .ok { st with
                        acc := st.acc ++
                          [line.map (fun x => if x = c then newC else x)],
                        prevLevel := lvl, offset := some offset }

/-- The enumeration loop of `load_with_adjusted_titles`: `i` is the 1-based
index of the next line (Python `enumerate(file_stream, 1)`). -/
def scanLines (filename : String) (title_level : Int) (title_styles : List Char) :
    Nat → ScanState → List Line → Except GendocError ScanState
  | _, st, [] => .ok st
  | i, st, line :: rest =>
    match processLine filename title_level title_styles i st line with
    | .error e => .error e
    | .ok st' => scanLines filename title_level title_styles (i + 1) st' rest

/-- `"".join(rst_lines)`: every stored line carries its newline. -/
def joinLines (ls : List Line) : List Char :=
  (ls.map (fun l => l ++ ['\n'])).flatten

/-- `load_with_adjusted_titles(filename, file_stream, title_level,
title_styles)` from `scripts/gendoc.py`. -/
def load_with_adjusted_titles (filename : String) (file_stream : List Line)
    (title_level : Int) (title_styles : List Char) :
    Except GendocError (List Char) :=
  match scanLines filename title_level title_styles 1
      ⟨[], 0, none, none⟩ file_stream with
  | .error e => .error e
  | .ok st => .ok (joinLines st.acc)

/-! ## `get_rst`: the file-reference tree resolver -/

/-- A node of the file-reference tree handed to `get_rst`.  `other` stands for
any Python value that is neither a string, a dict nor a list (the code raises
a configuration error for those), carrying its printed representation. -/
inductive FileInfo where
  | str (path : String) : FileInfo
  | dict (entries : List (Int × FileInfo)) : FileInfo
  | flist (children : List FileInfo) : FileInfo
  | other (entry : String) : FileInfo

/-- The spec directory, as a map from file path to file lines. -/
abbrev SpecDir := List (String × List Line)

/-- `open(spec_dir + file_info)`: look the path up in the directory. -/
def lookupFS (fs : SpecDir) (path : String) : Option (List Line) :=
  match fs with
  | [] => none
  | (p, lines) :: rest => if p = path then some lines else lookupFS rest path

/-- Python dict lookup `file_info[l]` on an entry list (first match). -/
def pyDictGet (es : List (Int × FileInfo)) (k : Int) : Option FileInfo :=
  match es with
  | [] => none
  | (k', v) :: rest => if k' = k then some v else pyDictGet rest k

/-- Python `rst[-2:]`: the last two characters (or the whole string when it is
shorter than two characters). -/
def pyLastTwo (s : List Char) : List Char :=
  s.drop (s.length - 2)

/-- `"".join(rst)` over the per-child results. -/
def joinAll (ss : List (List Char)) : List Char := ss.flatten

/-- The `for f in file_info: rst.append(get_rst(...))` loop of the list case,
parameterized by the recursive call `g`. -/
def rstLoopList (g : FileInfo → Int → Except GendocError (List Char)) :
    List FileInfo → Int → Except GendocError (List (List Char))
  | [], _ => .ok []
  | f :: rest, title_level =>
    match g f title_level with
    | .error e => .error e
    | .ok s =>
      match rstLoopList g rest title_level with
      | .error e => .error e
      | .ok ss => .ok (s :: ss)

/-- The `for l in levels: rst.append(get_rst(file_info[l], l, ...))` loop of
the dict case, parameterized by the recursive call `g`. -/
def rstLoopKeys (g : FileInfo → Int → Except GendocError (List Char))
    (es : List (Int × FileInfo)) :
    List Int → Except GendocError (List (List Char))
  | [] => .ok []
  | k :: ks =>
    match pyDictGet es k with
    | none => .error .keyError
    | some v =>
      match g v k with
      | .error e => .error e
      | .ok s =>
        match rstLoopKeys g es ks with
        | .error e => .error e
        | .ok ss => .ok (s :: ss)

/-- One level of `get_rst(file_info, title_level, title_styles, spec_dir,
adjust_titles)`, with recursion abstracted as `g`.  `sorted(file_info.keys())`
is `List.insertionSort (· ≤ ·)` on the keys. -/
def get_rstF (fs : SpecDir) (title_styles : List Char) (adjust_titles : Bool)
    (g : FileInfo → Int → Except GendocError (List Char))
    (file_info : FileInfo) (title_level : Int) :
    Except GendocError (List Char) :=
  match file_info with
  | .str path =>
    match lookupFS fs path with
    | none => .error (.missingFile path)
    | some lines =>
      let rstE :=
        if adjust_titles then
          load_with_adjusted_titles path lines title_level title_styles
        else
          .ok (joinLines lines)               -- f.read()
      match rstE with
      | .error e => .error e
      | .ok rst =>
        if pyLastTwo rst = ['\n', '\n'] then .ok rst
        else .error (.twoNewlines path)
  | .dict es =>
    match rstLoopKeys g es (List.insertionSort (· ≤ ·) (es.map Prod.fst)) with
    | .error e => .error e
    | .ok ss => .ok (joinAll ss)
  | .flist cs =>
    match rstLoopList g cs title_level with
    | .error e => .error e
    | .ok ss => .ok (joinAll ss)
  | .other entry => .error (.badEntry entry)

/-- `get_rst` from `scripts/gendoc.py`, with explicit fuel bounding the
recursion depth over the tree (the Python recursion is structural over the
finite configuration tree; any fuel larger than the tree depth is enough). -/
def get_rst (fs : SpecDir) (title_styles : List Char) (adjust_titles : Bool) :
    Nat → FileInfo → Int → Except GendocError (List Char)
  | 0 => get_rstF fs title_styles adjust_titles (fun _ _ => .error .outOfFuel)
  | fuel + 1 => get_rstF fs title_styles adjust_titles
      (fun fi lvl => get_rst fs title_styles adjust_titles fuel fi lvl)

/-! ## `fix_relative_titles` -/

/-- The `relative_title_styles` mapping from `targets.yaml`. -/
structure RelStyles where
  subtitle : Char
  sametitle : Char
  supertitle : Char

/-- The relative title characters, in the order the code lists them. -/
def relChars (r : RelStyles) : List Char :=
  [r.subtitle, r.sametitle, r.supertitle]

/-- One iteration of the line loop of `fix_relative_titles`: takes the current
`current_title_style` and the line, returns the new current style and the line
written to the output file.  Both regexes have the same shape as
`title_regex`, so `isTitleLine` is reused for matching. -/
def fixStep (title_styles : List Char) (rel : RelStyles)
    (current : Option Char) (line : Line) :
    Except GendocError (Option Char × Line) :=
  if ¬ isTitleLine (relChars rel) line then
    if isTitleLine title_styles line then
      match line with
      | [] => .error .indexError          -- line[0] (unreachable: length ≥ 3)
      | c :: _ => .ok (some c, line)      -- current_title_style = line[0]
    else
      .ok (current, line)
  else
    match line with
    | [] => .error .indexError            -- line[0] (unreachable: length ≥ 3)
    | lineChar :: _ =>
      match current with
      | none => .error .valueError        -- title_styles.index(None)
      | some cur =>
        match pyIndexOf title_styles cur with
        | none => .error .valueError
        | some curLvl =>
          if lineChar = rel.subtitle then
            if curLvl + 1 = title_styles.length then
              .error .subtitleTooDeep
            else
              match title_styles.get? (curLvl + 1) with
              | none => .error .indexError
              | some rc =>
                .ok (some cur, line.map (fun x => if x = lineChar then rc else x))
          else if lineChar = rel.sametitle then
            match title_styles.get? curLvl with
            | none => .error .indexError
            | some rc =>
              .ok (some cur, line.map (fun x => if x = lineChar then rc else x))
          else if lineChar = rel.supertitle then
            if curLvl = 0 then            -- current_title_level - 1 < 0
              .error .supertitleTooHigh
            else
              match title_styles.get? (curLvl - 1) with
              | none => .error .indexError
              | some rc =>
                .ok (some cur, line.map (fun x => if x = lineChar then rc else x))
          else
            .error (.unknownRelChar lineChar)

/-- The line loop of `fix_relative_titles`, returning the lines written to
the output file. -/
def fixScan (title_styles : List Char) (rel : RelStyles) :
    Option Char → List Line → Except GendocError (List Line)
  | _, [] => .ok []
  | current, line :: rest =>
    match fixStep title_styles rel current line with
    | .error e => .error e
    | .ok (current', out) =>
      match fixScan title_styles rel current' rest with
      | .error e => .error e
      | .ok outs => .ok (out :: outs)

/-- `fix_relative_titles` from `scripts/gendoc.py`: rewrites the relative
title lines of the concatenated document (given as its list of lines) into
absolute ones, starting with `current_title_style = None`. -/
def fix_relative_titles (title_styles : List Char) (rel : RelStyles)
    (lines : List Line) : Except GendocError (List Line) :=
  fixScan title_styles rel none lines

/-! ## Specification-side descriptions of the scan

These definitions re-express, as simple pure scans, which lines
`load_with_adjusted_titles` treats as headings and how it rewrites them; the
theorems below connect them to the embedded source. -/

/-- A line is treated as a candidate heading: it matches the title regex, a
previous non-title line exists, and that line is not longer than this one. -/
def detectLine (title_styles : List Char) (prevNT : Option Line) (line : Line) :
    Bool :=
  isTitleLine title_styles line &&
    match prevNT with
    | none => false
    | some prev => decide (prev.length ≤ line.length)

/-- The local level of a heading line: the style-table index of its first
character. -/
def lineLevel (title_styles : List Char) (line : Line) : Nat :=
  match line with
  | [] => 0
  | c :: _ => (pyIndexOf title_styles c).getD 0

/-- The sequence of local levels of the candidate headings of a fragment,
threading the previous-non-title line through the scan. -/
def fragLevelsAux (title_styles : List Char) :
    Option Line → List Line → List Nat
  | _, [] => []
  | prevNT, line :: rest =>
    if detectLine title_styles prevNT line then
      lineLevel title_styles line :: fragLevelsAux title_styles prevNT rest
    else
      fragLevelsAux title_styles (some line) rest

/-- The local levels of the candidate headings of a fragment. -/
def fragLevels (title_styles : List Char) (lines : List Line) : List Nat :=
  fragLevelsAux title_styles none lines

/-- How a single detected heading line is rewritten: every occurrence of its
first character is replaced by the marker at (Python) index
`title_level + level - offset`. -/
def rewriteHeading (title_styles : List Char) (title_level : Int) (offset : Nat)
    (line : Line) : Line :=
  match line with
  | [] => line
  | c :: _ =>
    let lvl := (pyIndexOf title_styles c).getD 0
    let adjusted : Int := title_level + (lvl : Int) - (offset : Int)
    if adjusted = (lvl : Int) then line
    else line.map (fun x => if x = c then (pyListGet title_styles adjusted).getD ' ' else x)

/-- The whole-fragment rewrite: candidate headings are rewritten with the
fixed `offset`, all other lines pass through unchanged. -/
def adjustFrag (title_styles : List Char) (title_level : Int) (offset : Nat) :
    Option Line → List Line → List Line
  | _, [] => []
  | prevNT, line :: rest =>
    if detectLine title_styles prevNT line then
      rewriteHeading title_styles title_level offset line ::
        adjustFrag title_styles title_level offset prevNT rest
    else
      line :: adjustFrag title_styles title_level offset (some line) rest

/-- The one-level-descent rule over a level sequence, starting from the
previous level `p` (`0` at the start of a fragment): each heading may be at
most one deeper than the previous one. -/
def descentOKb : Nat → List Nat → Bool
  | _, [] => true
  | p, l :: ls => decide (l ≤ p + 1) && descentOKb l ls

/-- Split a newline-terminated text back into its lines (inverse of
`joinLines` on newline-free lines); used to inspect concatenated outputs. -/
def splitLines : List Char → List Line
  | [] => []
  | c :: cs =>
    if c = '\n' then [] :: splitLines cs
    else
      match splitLines cs with
      | [] => [[c]]
      | l :: ls => (c :: l) :: ls

/-- The length of the run of newline characters at the end of a text (used to
state what "ends with exactly two trailing newlines" means). -/
def trailingNewlines (s : List Char) : Nat :=
  (s.reverse.takeWhile (fun c => c == '\n')).length

/-- The claim-side heading-line pattern of C3: one single repeated marker
character, length at least 3. -/
def singleRepeatedMarker (title_styles : List Char) (line : Line) : Bool :=
  match line with
  | [] => false
  | c :: _ =>
    decide (3 ≤ line.length) && decide (c ∈ title_styles) &&
      line.all (fun x => decide (x = c))

/-! ## Basic lemmas -/

theorem pyIndexOf_lt_length {xs : List Char} {c : Char} {n : Nat}
    (h : pyIndexOf xs c = some n) : n < xs.length := by
  induction xs generalizing n with
  | nil => simp [pyIndexOf] at h
  | cons x rest ih =>
    by_cases hx : x = c
    · simp only [pyIndexOf, if_pos hx, Option.some.injEq] at h
      subst h
      simp
    · simp only [pyIndexOf, if_neg hx, Option.map_eq_some'] at h
      obtain ⟨m, hm, rfl⟩ := h
      have := ih hm
      simp only [List.length_cons]
      omega

theorem pyIndexOf_isSome_of_mem {xs : List Char} {c : Char} (h : c ∈ xs) :
    ∃ n, pyIndexOf xs c = some n := by
  induction xs with
  | nil => simp at h
  | cons x rest ih =>
    by_cases hx : x = c
    · exact ⟨0, by simp [pyIndexOf, hx]⟩
    · have hc : c ∈ rest := by
        rcases List.mem_cons.mp h with h' | h'
        · exact absurd h'.symm hx
        · exact h'
      obtain ⟨m, hm⟩ := ih hc
      exact ⟨m + 1, by simp [pyIndexOf, hx, hm]⟩

theorem pyIndexOf_get_of_nodup {xs : List Char} (hnd : xs.Nodup) :
    ∀ (n : Nat) (h : n < xs.length), pyIndexOf xs (xs.get ⟨n, h⟩) = some n := by
  induction xs with
  | nil => intro n h; simp at h
  | cons x rest ih =>
    intro n h
    match n with
    | 0 => simp [pyIndexOf]
    | m + 1 =>
      have hm : m < rest.length := by
        simp only [List.length_cons] at h; omega
      have hx : x ∉ rest := (List.nodup_cons.mp hnd).1
      have hmem : rest.get ⟨m, hm⟩ ∈ rest := List.get_mem rest m hm
      have hne : x ≠ rest.get ⟨m, hm⟩ := fun he => hx (he ▸ hmem)
      have : (⟨m + 1, h⟩ : Fin (x :: rest).length).val = m + 1 := rfl
      simp only [List.get_cons_succ, pyIndexOf, if_neg hne,
        ih (List.nodup_cons.mp hnd).2 m hm, Option.map_some']

theorem pyListGet_some {xs : List Char} {i : Int}
    (h1 : i < (xs.length : Int)) (h2 : 0 ≤ i + (xs.length : Int)) :
    ∃ c, pyListGet xs i = some c ∧ c ∈ xs := by
  by_cases h0 : 0 ≤ i
  · have hn : i.toNat < xs.length := by omega
    refine ⟨xs.get ⟨i.toNat, hn⟩, ?_, List.get_mem xs _ hn⟩
    simp [pyListGet, h0, List.get?_eq_get hn]
  · have hn : (i + xs.length).toNat < xs.length := by omega
    refine ⟨xs.get ⟨(i + xs.length).toNat, hn⟩, ?_, List.get_mem xs _ hn⟩
    simp [pyListGet, h0, h2, List.get?_eq_get hn]

theorem pyListGet_nonneg {xs : List Char} {i : Int}
    (h0 : 0 ≤ i) (h1 : i < (xs.length : Int)) :
    ∃ (h : i.toNat < xs.length), pyListGet xs i = some (xs.get ⟨i.toNat, h⟩) := by
  have hn : i.toNat < xs.length := by omega
  exact ⟨hn, by simp [pyListGet, h0, List.get?_eq_get hn]⟩

theorem isTitleLine_iff {styles : List Char} {line : Line} :
    isTitleLine styles line = true ↔
      3 ≤ line.length ∧ ∀ c ∈ line, c ∈ styles := by
  simp [isTitleLine, List.all_eq_true]

theorem isTitleLine_ne_nil {styles : List Char} {line : Line}
    (h : isTitleLine styles line = true) : line ≠ [] := by
  intro he
  subst he
  simp [isTitleLine] at h

/-! ## Step lemmas for `processLine` -/

theorem processLine_content {styles : List Char} {line : Line}
    (fname : String) (L : Int) (i : Nat) (st : ScanState)
    (ht : isTitleLine styles line = false) :
    processLine fname L styles i st line =
      .ok { st with acc := st.acc ++ [line], prevNT := some line } := by
  simp [processLine, ht]

theorem processLine_skip {styles : List Char} {line : Line} {st : ScanState}
    {p : Line} (fname : String) (L : Int) (i : Nat)
    (hp : st.prevNT = some p)
    (ht : isTitleLine styles line = true)
    (hlen : line.length < p.length) :
    processLine fname L styles i st line =
      .ok { st with acc := st.acc ++ [line], prevNT := some line } := by
  simp [processLine, ht, hp, hlen]

theorem processLine_heading {styles : List Char} {st : ScanState}
    {p : Line} {c : Char} {cs : Line} {lvl k : Nat} {L : Int}
    (fname : String) (i : Nat)
    (hp : st.prevNT = some p)
    (ht : isTitleLine styles (c :: cs) = true)
    (hlen : p.length ≤ (c :: cs).length)
    (hidx : pyIndexOf styles c = some lvl)
    (hoffk : st.offset.getD lvl = k)
    (hdesc : lvl ≤ st.prevLevel + 1)
    (hlt : L + (lvl : Int) - (k : Int) < (styles.length : Int))
    (hge : 0 ≤ L + (lvl : Int) - (k : Int) + (styles.length : Int)) :
    processLine fname L styles i st (c :: cs) =
      .ok { st with
              acc := st.acc ++ [rewriteHeading styles L k (c :: cs)],
              prevLevel := lvl, offset := some k } := by
  have hlen' : p.length ≤ cs.length + 1 := by simpa using hlen
  have hnotlt : ¬ ((st.prevLevel : Int) - (lvl : Int) < -1) := by omega
  have hnotle : ¬ ((styles.length : Int) ≤ L + (lvl : Int) - (k : Int)) := by
    omega
  have hnotgt : ¬ (p.length > (c :: cs).length) := by omega
  by_cases heq : L + (lvl : Int) - (k : Int) = (lvl : Int)
  · have h2 : ¬ ((styles.length : Int) ≤ (lvl : Int)) := by omega
    simp [processLine, rewriteHeading, ht, hp, hidx, hoffk, hnotgt, hnotlt,
      h2, heq]
    intro h
    exact absurd h (by omega)
  · obtain ⟨newC, hnewC, _⟩ := pyListGet_some hlt hge
    simp [processLine, rewriteHeading, ht, hp, hidx, hoffk, hnotgt, hnotlt,
      hnotle, heq, hnewC]
    intro h
    exact absurd h (by omega)

/-! ## The scan loop computes `adjustFrag` -/

theorem scanLines_post (fname : String) (L : Int) (styles : List Char) :
    ∀ (lines : List Line) (i : Nat) (st : ScanState) (k : Nat) (p : Line),
    st.offset = some k → st.prevNT = some p →
    descentOKb st.prevLevel (fragLevelsAux styles (some p) lines) = true →
    (∀ l ∈ fragLevelsAux styles (some p) lines,
        L + (l : Int) - (k : Int) < (styles.length : Int) ∧
        0 ≤ L + (l : Int) - (k : Int) + (styles.length : Int)) →
    ∃ st', scanLines fname L styles i st lines = .ok st' ∧
      st'.acc = st.acc ++ adjustFrag styles L k (some p) lines ∧
      st'.offset = some k := by
  intro lines
  induction lines with
  | nil =>
    intro i st k p hoff _ _ _
    exact ⟨st, rfl, by simp [adjustFrag], hoff⟩
  | cons line rest ih =>
    intro i st k p hoff hp hdesc hbnd
    by_cases ht : isTitleLine styles line = true
    · by_cases hl : p.length ≤ line.length
      · -- candidate heading
        have hdet : detectLine styles (some p) line = true := by
          simp [detectLine, ht, hl]
        obtain ⟨c, cs, rfl⟩ : ∃ (c : Char) (cs : List Char), line = c :: cs := by
          cases line with
          | nil => exact absurd rfl (isTitleLine_ne_nil ht)
          | cons c cs => exact ⟨c, cs, rfl⟩
        have hcmem : c ∈ styles :=
          (isTitleLine_iff.mp ht).2 c (List.mem_cons_self _ _)
        obtain ⟨lvl, hidx⟩ := pyIndexOf_isSome_of_mem hcmem
        have hlvl : lineLevel styles (c :: cs) = lvl := by
          simp [lineLevel, hidx]
        have hfl : fragLevelsAux styles (some p) ((c :: cs) :: rest) =
            lvl :: fragLevelsAux styles (some p) rest := by
          simp [fragLevelsAux, hdet, hlvl]
        rw [hfl] at hdesc hbnd
        have hdesc' : lvl ≤ st.prevLevel + 1 ∧
            descentOKb lvl (fragLevelsAux styles (some p) rest) = true := by
          simpa [descentOKb] using hdesc
        obtain ⟨hlt, hge⟩ := hbnd lvl (List.mem_cons_self _ _)
        have hstep := processLine_heading fname i hp ht hl hidx
          (by rw [hoff]; rfl) hdesc'.1 hlt hge
        obtain ⟨st', hscan, hacc, hoff'⟩ := ih (i + 1)
          { st with
              acc := st.acc ++ [rewriteHeading styles L k (c :: cs)],
              prevLevel := lvl, offset := some k } k p rfl hp
          (by simpa using hdesc'.2)
          (by intro l hml; exact hbnd l (List.mem_cons_of_mem _ hml))
        refine ⟨st', ?_, ?_, hoff'⟩
        · simpa [scanLines, hstep] using hscan
        · rw [hacc]
          simp [adjustFrag, hdet]
      · -- underline shorter than its title: ordinary content
        have hdet : detectLine styles (some p) line = false := by
          simp [detectLine, ht, hl]
        have hfl : fragLevelsAux styles (some p) (line :: rest) =
            fragLevelsAux styles (some line) rest := by
          simp [fragLevelsAux, hdet]
        rw [hfl] at hdesc hbnd
        have hstep := processLine_skip fname L i hp ht (by omega)
        obtain ⟨st', hscan, hacc, hoff'⟩ := ih (i + 1)
          { st with acc := st.acc ++ [line], prevNT := some line } k line
          hoff rfl (by simpa using hdesc) hbnd
        refine ⟨st', ?_, ?_, hoff'⟩
        · simpa [scanLines, hstep] using hscan
        · rw [hacc]
          simp [adjustFrag, hdet]
    · -- not a title line: ordinary content
      have ht' : isTitleLine styles line = false := by
        simpa using ht
      have hdet : detectLine styles (some p) line = false := by
        simp [detectLine, ht']
      have hfl : fragLevelsAux styles (some p) (line :: rest) =
          fragLevelsAux styles (some line) rest := by
        simp [fragLevelsAux, hdet]
      rw [hfl] at hdesc hbnd
      have hstep := processLine_content fname L i st ht'
      obtain ⟨st', hscan, hacc, hoff'⟩ := ih (i + 1)
        { st with acc := st.acc ++ [line], prevNT := some line } k line
        hoff rfl (by simpa using hdesc) hbnd
      refine ⟨st', ?_, ?_, hoff'⟩
      · simpa [scanLines, hstep] using hscan
      · rw [hacc]
        simp [adjustFrag, hdet]

theorem scanLines_pre (fname : String) (L : Int) (styles : List Char) :
    ∀ (lines : List Line) (i : Nat) (st : ScanState) (k : Nat) (ls : List Nat),
    st.offset = none → st.prevLevel = 0 →
    (st.prevNT = none → ∀ x ∈ lines.head?, isTitleLine styles x = false) →
    fragLevelsAux styles st.prevNT lines = k :: ls →
    descentOKb 0 (k :: ls) = true →
    (∀ l ∈ k :: ls,
        L + (l : Int) - (k : Int) < (styles.length : Int) ∧
        0 ≤ L + (l : Int) - (k : Int) + (styles.length : Int)) →
    ∃ st', scanLines fname L styles i st lines = .ok st' ∧
      st'.acc = st.acc ++ adjustFrag styles L k st.prevNT lines := by
  intro lines
  induction lines with
  | nil =>
    intro i st k ls _ _ _ hfl
    simp [fragLevelsAux] at hfl
  | cons line rest ih =>
    intro i st k ls hoff hprev hsafe hfl hdesc hbnd
    rcases hpn : st.prevNT with _ | p
    · -- no previous line yet: the head line cannot be a title
      have hts : isTitleLine styles line = false :=
        hsafe hpn line (by simp)
      have hdet : detectLine styles none line = false := by
        simp [detectLine, hts]
      rw [hpn] at hfl
      have hfl' : fragLevelsAux styles (some line) rest = k :: ls := by
        simpa [fragLevelsAux, hdet] using hfl
      have hstep := processLine_content fname L i st hts
      obtain ⟨st', hscan, hacc⟩ := ih (i + 1)
        { st with acc := st.acc ++ [line], prevNT := some line } k ls
        hoff hprev (by intro h; cases h) (by simpa using hfl') hdesc hbnd
      refine ⟨st', ?_, ?_⟩
      · simpa [scanLines, hstep] using hscan
      · rw [hacc]
        simp [adjustFrag, hdet]
    · rw [hpn] at hfl
      by_cases ht : isTitleLine styles line = true
      · by_cases hl : p.length ≤ line.length
        · -- the first heading of the fragment
          have hdet : detectLine styles (some p) line = true := by
            simp [detectLine, ht, hl]
          obtain ⟨c, cs, rfl⟩ : ∃ (c : Char) (cs : List Char), line = c :: cs := by
            cases line with
            | nil => exact absurd rfl (isTitleLine_ne_nil ht)
            | cons c cs => exact ⟨c, cs, rfl⟩
          have hcmem : c ∈ styles :=
            (isTitleLine_iff.mp ht).2 c (List.mem_cons_self _ _)
          obtain ⟨lvl, hidx⟩ := pyIndexOf_isSome_of_mem hcmem
          have hlvl : lineLevel styles (c :: cs) = lvl := by
            simp [lineLevel, hidx]
          have hfl2 : lvl = k ∧ fragLevelsAux styles (some p) rest = ls := by
            have : lvl :: fragLevelsAux styles (some p) rest = k :: ls := by
              simpa [fragLevelsAux, hdet, hlvl] using hfl
            exact ⟨by injection this, by injection this⟩
          obtain ⟨rfl, hfl'⟩ := hfl2
          have hdesc' : lvl ≤ 1 ∧ descentOKb lvl ls = true := by
            simpa [descentOKb] using hdesc
          obtain ⟨hlt, hge⟩ := hbnd lvl (List.mem_cons_self _ _)
          have hstep := processLine_heading fname i hpn ht hl hidx
            (by rw [hoff]; rfl) (by omega) hlt hge
          obtain ⟨st', hscan, hacc, _⟩ := scanLines_post fname L styles rest
            (i + 1)
            { st with
                acc := st.acc ++ [rewriteHeading styles L lvl (c :: cs)],
                prevLevel := lvl, offset := some lvl } lvl p rfl hpn
            (by simpa [hfl'] using hdesc'.2)
            (by rw [hfl']; intro l hml; exact hbnd l (List.mem_cons_of_mem _ hml))
          refine ⟨st', ?_, ?_⟩
          · simpa [scanLines, hstep] using hscan
          · rw [hacc]
            simp [adjustFrag, hdet]
        · -- underline shorter than its title: ordinary content
          have hdet : detectLine styles (some p) line = false := by
            simp [detectLine, ht, hl]
          have hfl' : fragLevelsAux styles (some line) rest = k :: ls := by
            simpa [fragLevelsAux, hdet] using hfl
          have hstep := processLine_skip fname L i hpn ht (by omega)
          obtain ⟨st', hscan, hacc⟩ := ih (i + 1)
            { st with acc := st.acc ++ [line], prevNT := some line } k ls
            hoff hprev (by intro h; cases h) (by simpa using hfl') hdesc hbnd
          refine ⟨st', ?_, ?_⟩
          · simpa [scanLines, hstep] using hscan
          · rw [hacc]
            simp [adjustFrag, hdet]
      · -- not a title line: ordinary content
        have ht' : isTitleLine styles line = false := by
          simpa using ht
        have hdet : detectLine styles (some p) line = false := by
          simp [detectLine, ht']
        have hfl' : fragLevelsAux styles (some line) rest = k :: ls := by
          simpa [fragLevelsAux, hdet] using hfl
        have hstep := processLine_content fname L i st ht'
        obtain ⟨st', hscan, hacc⟩ := ih (i + 1)
          { st with acc := st.acc ++ [line], prevNT := some line } k ls
          hoff hprev (by intro h; cases h) (by simpa using hfl') hdesc hbnd
        refine ⟨st', ?_, ?_⟩
        · simpa [scanLines, hstep] using hscan
        · rw [hacc]
          simp [adjustFrag, hdet]

/-- When a fragment's headings obey the descent rule and all adjusted levels
are representable, `load_with_adjusted_titles` succeeds and returns exactly
the `adjustFrag` rewrite of the fragment. -/
theorem load_adjusted_ok {styles : List Char} {lines : List Line} {k : Nat}
    {ls : List Nat} (fname : String) (L : Int)
    (hhead : ∀ x ∈ lines.head?, isTitleLine styles x = false)
    (hfl : fragLevels styles lines = k :: ls)
    (hdesc : descentOKb 0 (k :: ls) = true)
    (hbnd : ∀ l ∈ k :: ls,
        L + (l : Int) - (k : Int) < (styles.length : Int) ∧
        0 ≤ L + (l : Int) - (k : Int) + (styles.length : Int)) :
    load_with_adjusted_titles fname lines L styles =
      .ok (joinLines (adjustFrag styles L k none lines)) := by
  obtain ⟨st', hscan, hacc⟩ := scanLines_pre fname L styles lines 1
    ⟨[], 0, none, none⟩ k ls rfl rfl (fun _ => hhead) hfl hdesc hbnd
  simp only [load_with_adjusted_titles, hscan]
  simp at hacc
  rw [hacc]

/-- For a duplicate-free style table, rewriting a fragment with a fixed
offset shifts every detected heading level by exactly
`title_level - offset`, and leaves the set of detected headings (by
position) unchanged. -/
theorem fragLevelsAux_adjustFrag {styles : List Char} (L : Int) (k : Nat)
    (hnd : styles.Nodup) :
    ∀ (lines : List Line) (prevNT : Option Line),
    (∀ l ∈ fragLevelsAux styles prevNT lines,
        0 ≤ L + (l : Int) - (k : Int) ∧
        L + (l : Int) - (k : Int) < (styles.length : Int)) →
    fragLevelsAux styles prevNT (adjustFrag styles L k prevNT lines) =
      (fragLevelsAux styles prevNT lines).map
        (fun l : Nat => (L + (l : Int) - (k : Int)).toNat) := by
  intro lines
  induction lines with
  | nil => intro prevNT _; simp [adjustFrag, fragLevelsAux]
  | cons line rest ih =>
    intro prevNT hbnd
    by_cases hdet : detectLine styles prevNT line = true
    · rcases prevNT with _ | p
      · simp [detectLine] at hdet
      · have htl : isTitleLine styles line = true ∧ p.length ≤ line.length := by
          simpa [detectLine] using hdet
        obtain ⟨ht, hl⟩ := htl
        obtain ⟨c, cs, rfl⟩ : ∃ (c : Char) (cs : List Char), line = c :: cs := by
          cases line with
          | nil => exact absurd rfl (isTitleLine_ne_nil ht)
          | cons c cs => exact ⟨c, cs, rfl⟩
        have hcmem : c ∈ styles :=
          (isTitleLine_iff.mp ht).2 c (List.mem_cons_self _ _)
        obtain ⟨lvl, hidx⟩ := pyIndexOf_isSome_of_mem hcmem
        have hlvl : lineLevel styles (c :: cs) = lvl := by
          simp [lineLevel, hidx]
        have hfl : fragLevelsAux styles (some p) ((c :: cs) :: rest) =
            lvl :: fragLevelsAux styles (some p) rest := by
          simp [fragLevelsAux, hdet, hlvl]
        rw [hfl] at hbnd
        obtain ⟨hge, hlt⟩ := hbnd lvl (List.mem_cons_self _ _)
        have hbnd' := fun l hml => hbnd l (List.mem_cons_of_mem _ hml)
        rw [hfl, List.map_cons]
        by_cases heq : L + (lvl : Int) - (k : Int) = (lvl : Int)
        · -- no rewrite needed
          have hrw : rewriteHeading styles L k (c :: cs) = c :: cs := by
            simp [rewriteHeading, hidx, heq]
          have htoNat : (L + (lvl : Int) - (k : Int)).toNat = lvl := by omega
          rw [show adjustFrag styles L k (some p) ((c :: cs) :: rest) =
              (c :: cs) :: adjustFrag styles L k (some p) rest from by
            simp [adjustFrag, hdet, hrw]]
          rw [show fragLevelsAux styles (some p) ((c :: cs) ::
              adjustFrag styles L k (some p) rest) =
            lvl :: fragLevelsAux styles (some p)
              (adjustFrag styles L k (some p) rest) from by
            simp [fragLevelsAux, hdet, hlvl]]
          rw [ih (some p) hbnd', htoNat]
        · -- the heading is rewritten with the marker at the adjusted index
          obtain ⟨hin, hget⟩ := pyListGet_nonneg hge hlt
          set newC := styles.get ⟨(L + (lvl : Int) - (k : Int)).toNat, hin⟩
            with hnewC
          have hrw : rewriteHeading styles L k (c :: cs) =
              newC :: cs.map (fun x => if x = c then newC else x) := by
            simp [rewriteHeading, hidx, heq, hget]
          have hnewmem : newC ∈ styles := List.get_mem styles _ hin
          have htr : isTitleLine styles
              (newC :: cs.map (fun x => if x = c then newC else x)) = true := by
            rw [isTitleLine_iff]
            constructor
            · have := (isTitleLine_iff.mp ht).1
              simpa using this
            · intro x hx
              rcases List.mem_cons.mp hx with rfl | hx'
              · exact hnewmem
              · obtain ⟨y, hy, rfl⟩ := List.mem_map.mp hx'
                by_cases hyc : y = c
                · simp [hyc, hnewmem]
                · simpa [hyc] using
                    (isTitleLine_iff.mp ht).2 y (List.mem_cons_of_mem _ hy)
          have hdet' : detectLine styles (some p)
              (newC :: cs.map (fun x => if x = c then newC else x)) = true := by
            rw [List.length_cons] at hl
            simp [detectLine, htr, hl]
          have hpi := pyIndexOf_get_of_nodup hnd _ hin
          have hlvl' : lineLevel styles
              (newC :: cs.map (fun x => if x = c then newC else x)) =
              (L + (lvl : Int) - (k : Int)).toNat := by
            rw [← hnewC] at hpi
            simp only [lineLevel, hpi, Option.getD_some]
          rw [show adjustFrag styles L k (some p) ((c :: cs) :: rest) =
              (newC :: cs.map (fun x => if x = c then newC else x)) ::
                adjustFrag styles L k (some p) rest from by
            simp only [adjustFrag, hdet, if_true]
            rw [hrw]]
          rw [show fragLevelsAux styles (some p)
              ((newC :: cs.map (fun x => if x = c then newC else x)) ::
                adjustFrag styles L k (some p) rest) =
            (L + (lvl : Int) - (k : Int)).toNat :: fragLevelsAux styles (some p)
              (adjustFrag styles L k (some p) rest) from by
            simp [fragLevelsAux, hdet', hlvl']]
          rw [ih (some p) hbnd']
    · -- ordinary content: passes through and becomes the new previous line
      have hdet' : detectLine styles prevNT line = false := by
        simpa using hdet
      have hfl : fragLevelsAux styles prevNT (line :: rest) =
          fragLevelsAux styles (some line) rest := by
        simp [fragLevelsAux, hdet']
      rw [hfl] at hbnd
      rw [show adjustFrag styles L k prevNT (line :: rest) =
          line :: adjustFrag styles L k (some line) rest from by
        simp [adjustFrag, hdet']]
      rw [show fragLevelsAux styles prevNT
          (line :: adjustFrag styles L k (some line) rest) =
        fragLevelsAux styles (some line)
          (adjustFrag styles L k (some line) rest) from by
        simp [fragLevelsAux, hdet']]
      rw [ih (some line) hbnd, hfl]

/-- Detected heading levels compose across a concatenation whose second part
starts with a non-title line. -/
theorem fragLevelsAux_append (styles : List Char) :
    ∀ (xs : List Line) (p : Option Line) (y : Line) (ys : List Line),
    isTitleLine styles y = false →
    fragLevelsAux styles p (xs ++ y :: ys) =
      fragLevelsAux styles p xs ++ fragLevelsAux styles (some y) ys := by
  intro xs
  induction xs with
  | nil =>
    intro p y ys hy
    have hdet : detectLine styles p y = false := by
      simp [detectLine, hy]
    simp [fragLevelsAux, hdet]
  | cons x xs ih =>
    intro p y ys hy
    by_cases hdet : detectLine styles p x = true
    · simp [fragLevelsAux, hdet, ih p y ys hy]
    · have hdet' : detectLine styles p x = false := by simpa using hdet
      simp [fragLevelsAux, hdet', ih (some x) y ys hy]

theorem joinLines_append (a b : List Line) :
    joinLines a ++ joinLines b = joinLines (a ++ b) := by
  simp [joinLines]

theorem getLast?_mem {α : Type} {l : List α} {a : α}
    (h : l.getLast? = some a) : a ∈ l := by
  induction l with
  | nil => simp at h
  | cons x xs ih =>
    cases xs with
    | nil =>
      simp [List.getLast?] at h
      simp [h]
    | cons y ys =>
      rw [List.getLast?_cons_cons] at h
      exact List.mem_cons_of_mem _ (ih h)

theorem rstLoopList_eq_mapM (g : FileInfo → Int → Except GendocError (List Char)) :
    ∀ (cs : List FileInfo) (lvl : Int),
    rstLoopList g cs lvl = cs.mapM (fun c => g c lvl) := by
  intro cs
  induction cs with
  | nil => intro lvl; rfl
  | cons c cs ih =>
    intro lvl
    rw [List.mapM_cons]
    cases hg : g c lvl with
    | error e =>
      simp only [rstLoopList, hg]
      rfl
    | ok s =>
      simp only [rstLoopList, hg, ih lvl]
      cases hrest : cs.mapM (fun c => g c lvl) with
      | error e => simp only [hrest]; rfl
      | ok ss => simp only [hrest]; rfl

theorem rstLoopKeys_eq_mapM (g : FileInfo → Int → Except GendocError (List Char))
    (es : List (Int × FileInfo)) :
    ∀ (ks : List Int),
    rstLoopKeys g es ks = ks.mapM (fun kk =>
      match pyDictGet es kk with
      | none => Except.error GendocError.keyError
      | some v => g v kk) := by
  intro ks
  induction ks with
  | nil => rfl
  | cons kk ks ih =>
    rw [List.mapM_cons]
    cases hd : pyDictGet es kk with
    | none =>
      simp only [rstLoopKeys, hd]
      rfl
    | some v =>
      cases hg : g v kk with
      | error e =>
        simp only [rstLoopKeys, hd, hg]
        rfl
      | ok s =>
        simp only [rstLoopKeys, hd, hg, ih]
        cases hrest : ks.mapM (fun kk =>
            match pyDictGet es kk with
            | none => Except.error GendocError.keyError
            | some v => g v kk) with
        | error e => simp only [hrest]; rfl
        | ok ss => simp only [hrest]; rfl

theorem except_match_map_join (X : Except GendocError (List (List Char))) :
    (match X with
      | .error e => Except.error e
      | .ok ss => Except.ok (joinAll ss)) = X.map joinAll := by
  cases X <;> rfl

/-! ## Claim theorems -/

/-- Combined success-and-shift lemma: if the level sequence of a fragment
obeys the descent rule and every adjusted level is inside the style table,
the load succeeds with the `adjustFrag` rewrite, whose heading levels are the
input levels shifted by the constant `L - k`, the first landing at `L`. -/
theorem load_and_shift {styles : List Char} {lines : List Line} {k : Nat}
    {ls : List Nat} (fname : String) (L : Int)
    (hnd : styles.Nodup)
    (hhead : ∀ x ∈ lines.head?, isTitleLine styles x = false)
    (hfl : fragLevels styles lines = k :: ls)
    (hdesc : descentOKb 0 (k :: ls) = true)
    (hbnd : ∀ l ∈ k :: ls, 0 ≤ L + (l : Int) - (k : Int) ∧
        L + (l : Int) - (k : Int) < (styles.length : Int)) :
    load_with_adjusted_titles fname lines L styles =
      .ok (joinLines (adjustFrag styles L k none lines)) ∧
    fragLevels styles (adjustFrag styles L k none lines) =
      (k :: ls).map (fun l : Nat => (L + (l : Int) - (k : Int)).toNat) ∧
    (fragLevels styles (adjustFrag styles L k none lines)).head? =
      some L.toNat := by
  have hbnd' : ∀ l ∈ k :: ls,
      L + (l : Int) - (k : Int) < (styles.length : Int) ∧
      0 ≤ L + (l : Int) - (k : Int) + (styles.length : Int) := by
    intro l hml
    obtain ⟨h1, h2⟩ := hbnd l hml
    exact ⟨h2, by omega⟩
  have hsh : fragLevels styles (adjustFrag styles L k none lines) =
      (k :: ls).map (fun l : Nat => (L + (l : Int) - (k : Int)).toNat) := by
    have hb2 : ∀ l ∈ fragLevelsAux styles none lines,
        0 ≤ L + (l : Int) - (k : Int) ∧
        L + (l : Int) - (k : Int) < (styles.length : Int) := by
      rw [show fragLevelsAux styles none lines = k :: ls from hfl]
      exact hbnd
    have := fragLevelsAux_adjustFrag L k hnd lines none hb2
    rw [fragLevels, this]
    rw [show fragLevelsAux styles none lines = k :: ls from hfl]
  refine ⟨load_adjusted_ok fname L hhead hfl hdesc hbnd', hsh, ?_⟩
  rw [hsh, List.map_cons]
  have : L + (k : Int) - (k : Int) = L := by omega
  simp [this]

/-- C1 (amended): for every fragment whose first heading has local level `k`,
whose headings satisfy the one-level-descent rule, and — as the
counterexample forces — whose target level satisfies `k ≤ L` with every
shifted level fitting inside the style table, `load_with_adjusted_titles`
succeeds, rewrites every heading by the same constant offset `L - k` (so the
top heading lands at style-table index `L`), and preserves all internal
relative nesting (the whole level sequence is shifted by one constant). -/
theorem c1_uniform_shift {styles : List Char} {lines : List Line} {k : Nat}
    {ls : List Nat} (fname : String) (L : Int)
    (hnd : styles.Nodup)
    (hhead : ∀ x ∈ lines.head?, isTitleLine styles x = false)
    (hfl : fragLevels styles lines = k :: ls)
    (hdesc : descentOKb 0 (k :: ls) = true)
    (hkL : (k : Int) ≤ L)
    (hbnd : ∀ l ∈ k :: ls, L + (l : Int) - (k : Int) < (styles.length : Int)) :
    load_with_adjusted_titles fname lines L styles =
      .ok (joinLines (adjustFrag styles L k none lines)) ∧
    fragLevels styles (adjustFrag styles L k none lines) =
      (k :: ls).map (fun l : Nat => (L + (l : Int) - (k : Int)).toNat) ∧
    (fragLevels styles (adjustFrag styles L k none lines)).head? =
      some L.toNat := by
  refine load_and_shift fname L hnd hhead hfl hdesc ?_
  intro l hml
  have h1 : (0 : Int) ≤ (l : Int) := Int.ofNat_nonneg l
  exact ⟨by omega, hbnd l hml⟩

/-- C1 counterexample: the claim as stated fails without the `k ≤ L`
restriction and without excluding style-table exhaustion.  First input: the
fragment with heading levels `[1, 0]` (first heading at level `k = 1`,
satisfying the descent rule) normalized to `L = 0` yields output heading
levels `[0, 3]`: the two headings move by `-1` and `+3`, not by the constant
`L - k = -1`, so internal nesting is inverted, not preserved.  Second input:
levels `[0, 1, 2, 3]` at `L = 1` raise an exception instead of being
rewritten. -/
theorem c1_counterexample :
    load_with_adjusted_titles "f"
      [['t', 't', 't'], ['-', '-', '-'], ['s', 's', 's'], ['=', '=', '='],
       [], []] 0 ['=', '-', '~', '+'] =
      .ok (joinLines
        [['t', 't', 't'], ['=', '=', '='], ['s', 's', 's'], ['+', '+', '+'],
         [], []]) ∧
    fragLevels ['=', '-', '~', '+']
      [['t', 't', 't'], ['-', '-', '-'], ['s', 's', 's'], ['=', '=', '='],
       [], []] = [1, 0] ∧
    descentOKb 0 [1, 0] = true ∧
    fragLevels ['=', '-', '~', '+']
      [['t', 't', 't'], ['=', '=', '='], ['s', 's', 's'], ['+', '+', '+'],
       [], []] = [0, 3] ∧
    ¬ ((0 : Int) - 1 = 3 - 0) ∧
    load_with_adjusted_titles "g"
      [['t', '1'], ['=', '=', '='], ['t', '2'], ['-', '-', '-'],
       ['t', '3'], ['~', '~', '~'], ['t', '4'], ['+', '+', '+'], [], []]
      1 ['=', '-', '~', '+'] = .error (.titleTooLow "g" 9) := by
  decide

/-- C1 witness: the spec's own example.  Style table `["=", "-", "~", "+"]`,
heading markers `=, -, -, =, -`, `target_level = 1`: the theorem applies, and
the output markers are `-, ~, ~, -, ~`. -/
theorem c1_uniform_shift_witness :
    (load_with_adjusted_titles "ex"
      [['t', '1'], ['=', '=', '='], ['t', '2'], ['-', '-', '-'],
       ['t', '3'], ['-', '-', '-'], ['t', '4'], ['=', '=', '='],
       ['t', '5'], ['-', '-', '-'], [], []] 1 ['=', '-', '~', '+'] =
      .ok (joinLines (adjustFrag ['=', '-', '~', '+'] 1 0 none
        [['t', '1'], ['=', '=', '='], ['t', '2'], ['-', '-', '-'],
         ['t', '3'], ['-', '-', '-'], ['t', '4'], ['=', '=', '='],
         ['t', '5'], ['-', '-', '-'], [], []])) ∧
     fragLevels ['=', '-', '~', '+'] (adjustFrag ['=', '-', '~', '+'] 1 0 none
        [['t', '1'], ['=', '=', '='], ['t', '2'], ['-', '-', '-'],
         ['t', '3'], ['-', '-', '-'], ['t', '4'], ['=', '=', '='],
         ['t', '5'], ['-', '-', '-'], [], []]) =
       [0, 1, 1, 0, 1].map (fun l : Nat => ((1 : Int) + (l : Int) - ((0 : Nat) : Int)).toNat) ∧
     (fragLevels ['=', '-', '~', '+'] (adjustFrag ['=', '-', '~', '+'] 1 0 none
        [['t', '1'], ['=', '=', '='], ['t', '2'], ['-', '-', '-'],
         ['t', '3'], ['-', '-', '-'], ['t', '4'], ['=', '=', '='],
         ['t', '5'], ['-', '-', '-'], [], []])).head? = some (1 : Int).toNat) ∧
    adjustFrag ['=', '-', '~', '+'] 1 0 none
        [['t', '1'], ['=', '=', '='], ['t', '2'], ['-', '-', '-'],
         ['t', '3'], ['-', '-', '-'], ['t', '4'], ['=', '=', '='],
         ['t', '5'], ['-', '-', '-'], [], []] =
      [['t', '1'], ['-', '-', '-'], ['t', '2'], ['~', '~', '~'],
       ['t', '3'], ['~', '~', '~'], ['t', '4'], ['-', '-', '-'],
       ['t', '5'], ['~', '~', '~'], [], []] :=
  ⟨c1_uniform_shift "ex" 1 (by decide) (by decide) (by decide) (by decide)
    (by decide) (by decide), by decide⟩

/-- C9: if the very first line of a fragment already matches the
heading-marker pattern, no ordinary-content line precedes it and the length
comparison `len(prev_non_title_line) > len(line)` is evaluated with
`prev_non_title_line = None`: an unhandled Python `TypeError`, not a heading
treatment and not a named fragment error. -/
theorem c9_first_line_type_error (fname : String) (L : Int)
    (styles : List Char) (line : Line) (rest : List Line)
    (ht : isTitleLine styles line = true) :
    load_with_adjusted_titles fname (line :: rest) L styles =
      .error .typeError := by
  simp [load_with_adjusted_titles, scanLines, processLine, ht]

/-- C9 witness: a fragment whose first line is `===`. -/
theorem c9_first_line_type_error_witness :
    isTitleLine ['=', '-', '~', '+'] ['=', '=', '='] = true ∧
    load_with_adjusted_titles "f" [['=', '=', '='], ['t', 't', 't']] 0
      ['=', '-', '~', '+'] = .error .typeError :=
  ⟨by decide,
   c9_first_line_type_error "f" 0 ['=', '-', '~', '+'] ['=', '=', '=']
     [['t', 't', 't']] (by decide)⟩

/-- C5: when the file offset `k` (the first heading's level) exceeds the
levels reachable by `target_level + level`, the adjusted level is negative;
the code raises no error and silently rewrites the heading with the marker at
Python index `len(style_table) + adjusted_level`, i.e. from the deep end of
the table. -/
theorem c5_negative_adjusted {styles : List Char} {st : ScanState} {p : Line}
    {c : Char} {cs : Line} {lvl k : Nat} (fname : String) (L : Int) (i : Nat)
    (hp : st.prevNT = some p)
    (ht : isTitleLine styles (c :: cs) = true)
    (hl : p.length ≤ (c :: cs).length)
    (hidx : pyIndexOf styles c = some lvl)
    (hoff : st.offset = some k)
    (hk : k < styles.length)
    (hL : 0 ≤ L)
    (hdesc : lvl ≤ st.prevLevel + 1)
    (hneg : L + (lvl : Int) - (k : Int) < 0) :
    ∃ mc, pyListGet styles (L + (lvl : Int) - (k : Int)) = some mc ∧
      styles.get? ((L + (lvl : Int) - (k : Int) + (styles.length : Int)).toNat) =
        some mc ∧
      processLine fname L styles i st (c :: cs) =
        .ok { st with
              acc := st.acc ++
                [(c :: cs).map (fun x => if x = c then mc else x)],
              prevLevel := lvl, offset := some k } := by
  have h0 : (0 : Int) ≤ (lvl : Int) := Int.ofNat_nonneg _
  have hlt : L + (lvl : Int) - (k : Int) < (styles.length : Int) := by omega
  have hge : 0 ≤ L + (lvl : Int) - (k : Int) + (styles.length : Int) := by
    omega
  obtain ⟨mc, hmc, _⟩ := pyListGet_some hlt hge
  have hmc' : styles.get?
      ((L + (lvl : Int) - (k : Int) + (styles.length : Int)).toNat) = some mc := by
    have hnn : ¬ (0 ≤ L + (lvl : Int) - (k : Int)) := by omega
    simpa [pyListGet, hnn, hge] using hmc
  have hne : ¬ (L + (lvl : Int) - (k : Int) = (lvl : Int)) := by omega
  have hstep := processLine_heading fname i hp ht hl hidx
    (by rw [hoff]; rfl) hdesc hlt hge
  refine ⟨mc, hmc, hmc', ?_⟩
  rw [hstep]
  simp [rewriteHeading, hidx, hne, hmc]

/-- C5 witness: mid-scan state of the fragment `ttt / --- / sss / ===` at
`target_level = 0` (offset `k = 1`): the `===` heading has adjusted level
`-1` and is rewritten with `styles[-1] = '+'`; a full run of the same
fragment shows the resulting document. -/
theorem c5_negative_adjusted_witness :
    (∃ mc, pyListGet ['=', '-', '~', '+'] ((0 : Int) + ((0 : Nat) : Int) - ((1 : Nat) : Int)) = some mc ∧
      (['=', '-', '~', '+'] : List Char).get?
        (((0 : Int) + ((0 : Nat) : Int) - ((1 : Nat) : Int) + (((['=', '-', '~', '+'] : List Char).length : Nat) : Int)).toNat) =
        some mc ∧
      processLine "f" 0 ['=', '-', '~', '+'] 4
        ⟨[['t', 't', 't'], ['=', '=', '='], ['s', 's', 's']], 1, some 1,
          some ['s', 's', 's']⟩ ['=', '=', '='] =
        .ok { acc := [['t', 't', 't'], ['=', '=', '='], ['s', 's', 's'],
                (['=', '=', '='] : Line).map
                  (fun x => if x = '=' then mc else x)],
              prevLevel := 0, offset := some 1,
              prevNT := some ['s', 's', 's'] }) ∧
    load_with_adjusted_titles "f"
      [['t', 't', 't'], ['-', '-', '-'], ['s', 's', 's'], ['=', '=', '='],
       [], []] 0 ['=', '-', '~', '+'] =
      .ok (joinLines
        [['t', 't', 't'], ['=', '=', '='], ['s', 's', 's'], ['+', '+', '+'],
         [], []]) := by
  constructor
  · exact @c5_negative_adjusted ['=', '-', '~', '+']
      ⟨[['t', 't', 't'], ['=', '=', '='], ['s', 's', 's']], 1, some 1,
        some ['s', 's', 's']⟩ ['s', 's', 's'] '=' ['=', '='] 0 1 "f" 0 4
      rfl (by decide) (by decide) (by decide) rfl (by decide) (by decide)
      (by decide) (by decide)
  · decide

/-- C4 (code bug): the descent-rule error is raised exactly as the claim
says, and its message names the offending file — but the line number it
reports is `i + 1` where `i` is already the 1-based number of the offending
underline (`enumerate(file_stream, 1)` followed by `i + 1` in the message).
Here the offending underline `~~~` is line 4, yet the error reports line 5. -/
theorem c4_descent_error_reported_line :
    load_with_adjusted_titles "f"
      [['t', 't', 't'], ['=', '=', '='], ['z', 'z', 'z'], ['~', '~', '~']]
      0 ['=', '-', '~', '+'] =
      .error (.badTitleStyle "f" 5 '~' '=') ∧
    ([['t', 't', 't'], ['=', '=', '='], ['z', 'z', 'z'], ['~', '~', '~']] :
      List Line).get? (4 - 1) = some ['~', '~', '~'] ∧
    ([['t', 't', 't'], ['=', '=', '='], ['z', 'z', 'z'], ['~', '~', '~']] :
      List Line).get? (5 - 1) = none := by
  decide

/-- C8 (code bug): exhausting the style table is a fatal error naming the
file and aborting the run — but, as in C4, the reported line number is one
more than the offending line's 1-based number: the offending underline `+++`
is line 8 of the fragment, the message says 9. -/
theorem c8_exhaustion_error_reported_line :
    load_with_adjusted_titles "f"
      [['t', '1'], ['=', '=', '='], ['t', '2'], ['-', '-', '-'],
       ['t', '3'], ['~', '~', '~'], ['t', '4'], ['+', '+', '+'], [], []]
      1 ['=', '-', '~', '+'] = .error (.titleTooLow "f" 9) ∧
    ([['t', '1'], ['=', '=', '='], ['t', '2'], ['-', '-', '-'],
      ['t', '3'], ['~', '~', '~'], ['t', '4'], ['+', '+', '+'], [], []] :
      List Line).get? (8 - 1) = some ['+', '+', '+'] ∧
    ([['t', '1'], ['=', '=', '='], ['t', '2'], ['-', '-', '-'],
      ['t', '3'], ['~', '~', '~'], ['t', '4'], ['+', '+', '+'], [], []] :
      List Line).get? (9 - 1) = some [] := by
  decide

/-- C2 (amended): for a fragment-reference node, `get_rst` first runs
normalization and only then checks the *normalized* output: a normalization
error is raised as-is (so the newline rejection happens after normalization,
not before), and the fatal error naming the fragment is raised exactly when
the last two characters of the normalized output are not two newlines (at
least two trailing newlines, not exactly two). -/
theorem c2_trailing_newline_check (fuel : Nat) (fs : SpecDir)
    (styles : List Char) (path : String) (L : Int) (lines : List Line)
    (hfs : lookupFS fs path = some lines) :
    (∀ e, load_with_adjusted_titles path lines L styles = .error e →
       get_rst fs styles true fuel (.str path) L = .error e) ∧
    (∀ s, load_with_adjusted_titles path lines L styles = .ok s →
       get_rst fs styles true fuel (.str path) L =
         if pyLastTwo s = ['\n', '\n'] then .ok s
         else .error (.twoNewlines path)) := by
  constructor
  · intro e he
    cases fuel <;> simp [get_rst, get_rstF, hfs, he]
  · intro s hs
    cases fuel <;> simp [get_rst, get_rstF, hfs, hs]

/-- C2 counterexample: (i) a fragment whose content ends with *three*
trailing newlines — so not with exactly two — is accepted, not rejected;
(ii) a fragment that lacks the required trailing newlines *and* violates the
descent rule raises the normalization error, not the newline rejection: the
newline check does not run before normalization. -/
theorem c2_counterexample :
    trailingNewlines (joinLines [['a'], [], []]) = 3 ∧
    get_rst [("a", [['a'], [], []])] ['=', '-', '~', '+'] true 1
      (.str "a") 0 = .ok (joinLines [['a'], [], []]) ∧
    trailingNewlines (joinLines
      [['t', 't', 't'], ['=', '=', '='], ['z', 'z', 'z'], ['~', '~', '~']]) = 1 ∧
    get_rst
      [("b", [['t', 't', 't'], ['=', '=', '='], ['z', 'z', 'z'], ['~', '~', '~']])]
      ['=', '-', '~', '+'] true 1 (.str "b") 0 =
      .error (.badTitleStyle "b" 5 '~' '=') := by
  decide

/-- C2 witness: the amended theorem applied to a well-formed fragment. -/
theorem c2_trailing_newline_check_witness :
    get_rst [("a", [['a', 'b'], [], []])] ['=', '-', '~', '+'] true 1
      (.str "a") 0 = .ok (joinLines [['a', 'b'], [], []]) := by
  have h := (c2_trailing_newline_check 1 [("a", [['a', 'b'], [], []])]
    ['=', '-', '~', '+'] "a" 0 [['a', 'b'], [], []] (by decide)).2
    (joinLines [['a', 'b'], [], []]) (by decide)
  rw [h]
  decide

/-- C3 (amended): with a previous non-title line `p` in hand, a line is
treated as a candidate heading iff it has length ≥ 3, consists solely of
characters *drawn from* the style table (not necessarily one repeated
character — the regex is a character class), and is at least as long as `p`;
a line failing the condition is passed through unchanged as ordinary content
(and becomes the new previous non-title line). -/
theorem c3_candidate_condition (fname : String) (L : Int) (styles : List Char)
    (i : Nat) (st : ScanState) (p : Line) (line : Line)
    (hp : st.prevNT = some p) :
    (detectLine styles (some p) line = true ↔
      (3 ≤ line.length ∧ (∀ x ∈ line, x ∈ styles) ∧
        p.length ≤ line.length)) ∧
    (detectLine styles (some p) line = false →
      processLine fname L styles i st line =
        .ok { st with acc := st.acc ++ [line], prevNT := some line }) := by
  constructor
  · simp [detectLine, isTitleLine, List.all_eq_true, and_assoc]
  · intro hdet
    by_cases ht : isTitleLine styles line = true
    · have hlen : line.length < p.length := by
        by_contra hcon
        have hd : detectLine styles (some p) line = true := by
          simp [detectLine, ht]
          omega
        rw [hd] at hdet
        cases hdet
      exact processLine_skip fname L i hp ht hlen
    · exact processLine_content fname L i st (by simpa using ht)

/-- C3 counterexample: the line `=-=` is not one repeated marker character,
so per the claim it should pass through unchanged; the code treats it as a
heading (the regex is a character class) and rewrites it to `---`. -/
theorem c3_counterexample :
    singleRepeatedMarker ['=', '-', '~', '+'] ['=', '-', '='] = false ∧
    load_with_adjusted_titles "f" [['t', 't', 't'], ['=', '-', '='], [], []]
      1 ['=', '-', '~', '+'] =
      .ok (joinLines [['t', 't', 't'], ['-', '-', '-'], [], []]) ∧
    joinLines [['t', 't', 't'], ['-', '-', '-'], [], []] ≠
      joinLines [['t', 't', 't'], ['=', '-', '='], [], []] := by
  decide

/-- C3 witness: a line of characters outside the style table is not a
candidate and passes through unchanged. -/
theorem c3_candidate_condition_witness :
    (detectLine ['=', '-', '~', '+'] (some ['t', 't']) ['x', 'y', 'z'] = false →
      processLine "f" 1 ['=', '-', '~', '+'] 3
        ⟨[], 0, none, some ['t', 't']⟩ ['x', 'y', 'z'] =
        .ok ⟨[['x', 'y', 'z']], 0, none, some ['x', 'y', 'z']⟩) ∧
    detectLine ['=', '-', '~', '+'] (some ['t', 't']) ['x', 'y', 'z'] = false :=
  ⟨(c3_candidate_condition "f" 1 ['=', '-', '~', '+'] 3
      ⟨[], 0, none, some ['t', 't']⟩ ['t', 't'] ['x', 'y', 'z'] rfl).2,
   by decide⟩

theorem get?_getD_of_lt {styles : List Char} {m : Nat}
    (h : m < styles.length) :
    styles.get? m = some (styles.getD m ' ') := by
  rw [List.get?_eq_getElem?, List.getD_eq_getElem?_getD,
    List.getElem?_eq_getElem h]
  rfl

/-- C6: a relative marker line (all one relative character, length ≥ 3),
with `current_title_style = cur` at style-table index `j`, is rewritten to
the repeated absolute marker at index `j + 1` (subtitle), `j` (sametitle), or
`j - 1` (supertitle), leaving `current_title_style` unchanged; a subtitle
marker when `cur` is the deepest entry, or a supertitle marker when it is the
top entry, is a fatal error. -/
theorem c6_relative_rewrite (styles : List Char) (rel : RelStyles)
    (cur : Char) (j n : Nat)
    (hidx : pyIndexOf styles cur = some j)
    (hn : 3 ≤ n) :
    ((j + 1 ≠ styles.length →
       fixStep styles rel (some cur) (List.replicate n rel.subtitle) =
         .ok (some cur, List.replicate n (styles.getD (j + 1) ' '))) ∧
     (j + 1 = styles.length →
       fixStep styles rel (some cur) (List.replicate n rel.subtitle) =
         .error .subtitleTooDeep)) ∧
    (rel.sametitle ≠ rel.subtitle →
       fixStep styles rel (some cur) (List.replicate n rel.sametitle) =
         .ok (some cur, List.replicate n (styles.getD j ' '))) ∧
    (rel.supertitle ≠ rel.subtitle → rel.supertitle ≠ rel.sametitle →
      ((j ≠ 0 →
        fixStep styles rel (some cur) (List.replicate n rel.supertitle) =
          .ok (some cur, List.replicate n (styles.getD (j - 1) ' '))) ∧
       (j = 0 →
        fixStep styles rel (some cur) (List.replicate n rel.supertitle) =
          .error .supertitleTooHigh))) := by
  have hj : j < styles.length := pyIndexOf_lt_length hidx
  obtain ⟨m, rfl⟩ : ∃ m, n = m + 3 := ⟨n - 3, by omega⟩
  have hrep : ∀ ch : Char, List.replicate (m + 3) ch =
      ch :: List.replicate (m + 2) ch := by
    intro ch
    rfl
  have htitle : ∀ ch : Char, ch ∈ relChars rel →
      isTitleLine (relChars rel) (List.replicate (m + 3) ch) = true := by
    intro ch hch
    rw [isTitleLine_iff]
    constructor
    · simp
    · intro c hc
      rw [List.eq_of_mem_replicate hc]
      exact hch
  refine ⟨⟨?_, ?_⟩, ?_, ?_⟩
  · intro hne
    have hlt : j + 1 < styles.length := by omega
    have ht := htitle rel.subtitle (by simp [relChars])
    rw [hrep rel.subtitle] at ht ⊢
    simp [fixStep, ht, hidx, hne, get?_getD_of_lt hlt, List.map_replicate]
    obtain ⟨v, hv⟩ : ∃ v, styles[j + 1]? = some v :=
      ⟨_, List.getElem?_eq_getElem hlt⟩
    rw [hv]
    rfl
  · intro heq
    have ht := htitle rel.subtitle (by simp [relChars])
    rw [hrep rel.subtitle] at ht ⊢
    simp [fixStep, ht, hidx, heq]
  · intro hns
    have ht := htitle rel.sametitle (by simp [relChars])
    rw [hrep rel.sametitle] at ht ⊢
    simp [fixStep, ht, hidx, hns, get?_getD_of_lt hj, List.map_replicate]
    obtain ⟨v, hv⟩ : ∃ v, styles[j]? = some v :=
      ⟨_, List.getElem?_eq_getElem hj⟩
    rw [hv]
    rfl
  · intro hns hnm
    constructor
    · intro hj0
      have hlt : j - 1 < styles.length := by omega
      have ht := htitle rel.supertitle (by simp [relChars])
      rw [hrep rel.supertitle] at ht ⊢
      simp [fixStep, ht, hidx, hns, hnm, hj0, get?_getD_of_lt hlt,
        List.map_replicate]
      obtain ⟨v, hv⟩ : ∃ v, styles[j - 1]? = some v :=
        ⟨_, List.getElem?_eq_getElem hlt⟩
      rw [hv]
      rfl
    · intro hj0
      have ht := htitle rel.supertitle (by simp [relChars])
      rw [hrep rel.supertitle] at ht ⊢
      simp [fixStep, ht, hidx, hns, hnm, hj0]

/-- C6 witness: with style table `["=", "-", "~", "+"]` and current style
`'-'` (index 1), a subtitle line `<<<` becomes `~~~` (index 2); a full run
rewrites the document accordingly, and a subtitle under the deepest style
`'+'` is the fatal "can't go any lower" error. -/
theorem c6_relative_rewrite_witness :
    fixStep ['=', '-', '~', '+'] ⟨'<', '/', '>'⟩ (some '-')
      (List.replicate 3 '<') =
      .ok (some '-', List.replicate 3 ((['=', '-', '~', '+'] : List Char).getD 2 ' ')) ∧
    fix_relative_titles ['=', '-', '~', '+'] ⟨'<', '/', '>'⟩
      [['T', 'i', 't'], ['-', '-', '-'], ['<', '<', '<']] =
      .ok [['T', 'i', 't'], ['-', '-', '-'], ['~', '~', '~']] ∧
    fix_relative_titles ['=', '-', '~', '+'] ⟨'<', '/', '>'⟩
      [['T', 'i', 't'], ['+', '+', '+'], ['<', '<', '<']] =
      .error .subtitleTooDeep :=
  ⟨((c6_relative_rewrite ['=', '-', '~', '+'] ⟨'<', '/', '>'⟩ '-' 1 3
      (by decide) (by decide)).1).1 (by decide),
   by decide, by decide⟩

/-- C7: `get_rst` resolves an ordered-list node by resolving each child at
the *same* target level and concatenating in list order (first failure
aborts); it resolves a level-keyed mapping by sorting the integer keys
ascending and resolving each child with its own key as target level,
concatenating in ascending-key order; any other node shape is a fatal error
naming the offending entry. -/
theorem c7_tree_resolution (fs : SpecDir) (styles : List Char) (adjust : Bool)
    (fuel : Nat) (cs : List FileInfo) (es : List (Int × FileInfo))
    (entry : String) (L : Int) :
    (get_rst fs styles adjust (fuel + 1) (.flist cs) L =
      (cs.mapM (fun c => get_rst fs styles adjust fuel c L)).map joinAll) ∧
    (get_rst fs styles adjust (fuel + 1) (.dict es) L =
      ((List.insertionSort (· ≤ ·) (es.map Prod.fst)).mapM
        (fun kk => match pyDictGet es kk with
          | none => Except.error GendocError.keyError
          | some v => get_rst fs styles adjust fuel v kk)).map joinAll) ∧
    List.Sorted (· ≤ ·) (List.insertionSort (· ≤ ·) (es.map Prod.fst)) ∧
    (List.insertionSort (· ≤ ·) (es.map Prod.fst)).Perm (es.map Prod.fst) ∧
    (get_rst fs styles adjust fuel (.other entry) L =
      .error (.badEntry entry)) := by
  refine ⟨?_, ?_, ?_, ?_, ?_⟩
  · rw [show get_rst fs styles adjust (fuel + 1) (.flist cs) L =
        (match rstLoopList
            (fun fi lvl => get_rst fs styles adjust fuel fi lvl) cs L with
          | .error e => Except.error e
          | .ok ss => Except.ok (joinAll ss)) from rfl]
    rw [except_match_map_join, rstLoopList_eq_mapM]
  · rw [show get_rst fs styles adjust (fuel + 1) (.dict es) L =
        (match rstLoopKeys
            (fun fi lvl => get_rst fs styles adjust fuel fi lvl) es
            (List.insertionSort (· ≤ ·) (es.map Prod.fst)) with
          | .error e => Except.error e
          | .ok ss => Except.ok (joinAll ss)) from rfl]
    rw [except_match_map_join, rstLoopKeys_eq_mapM]
  · exact List.sorted_insertionSort _ _
  · exact List.perm_insertionSort _ _
  · cases fuel <;> rfl

/-- C10 (amended): concatenating two individually valid normalized fragments
produces no invalid heading sequence at the seam, *provided* the first
fragment's first heading is at local level `0` (the no-warning case) and the
second fragment's target level is at most the first's plus one.  The
conclusion: both loads succeed, the concatenated text is the join of the two
rewritten line lists, its heading levels are the two shifted level sequences
in order, the second fragment's first heading lands exactly at `LB`, and
`LB ≤ (last heading level of the first fragment) + 1`. -/
theorem c10_seam_safety (fnA fnB : String) {styles : List Char}
    {linesA linesB : List Line} {restA : List Nat} {kB : Nat}
    {restB : List Nat} (LA LB : Int)
    (hnd : styles.Nodup)
    (hheadA : ∀ x ∈ linesA.head?, isTitleLine styles x = false)
    (hflA : fragLevels styles linesA = 0 :: restA)
    (hdescA : descentOKb 0 (0 :: restA) = true)
    (hbndA : ∀ l ∈ (0 : Nat) :: restA, LA + (l : Int) < (styles.length : Int))
    (hheadB : ∀ x ∈ linesB.head?, isTitleLine styles x = false)
    (hflB : fragLevels styles linesB = kB :: restB)
    (hdescB : descentOKb 0 (kB :: restB) = true)
    (hbndB : ∀ l ∈ kB :: restB,
        LB + (l : Int) - (kB : Int) < (styles.length : Int) ∧
        0 ≤ LB + (l : Int) - (kB : Int))
    (hLA : 0 ≤ LA) (hLB : LB ≤ LA + 1) :
    load_with_adjusted_titles fnA linesA LA styles =
      .ok (joinLines (adjustFrag styles LA 0 none linesA)) ∧
    load_with_adjusted_titles fnB linesB LB styles =
      .ok (joinLines (adjustFrag styles LB kB none linesB)) ∧
    joinLines (adjustFrag styles LA 0 none linesA) ++
      joinLines (adjustFrag styles LB kB none linesB) =
      joinLines (adjustFrag styles LA 0 none linesA ++
        adjustFrag styles LB kB none linesB) ∧
    fragLevels styles (adjustFrag styles LA 0 none linesA ++
        adjustFrag styles LB kB none linesB) =
      ((0 : Nat) :: restA).map (fun l : Nat => (LA + (l : Int)).toNat) ++
      (kB :: restB).map (fun l : Nat => (LB + (l : Int) - (kB : Int)).toNat) ∧
    ((kB :: restB).map
        (fun l : Nat => (LB + (l : Int) - (kB : Int)).toNat)).head? =
      some LB.toNat ∧
    (∀ x ∈ (((0 : Nat) :: restA).map
        (fun l : Nat => (LA + (l : Int)).toNat)).getLast?,
      LB.toNat ≤ x + 1) := by
  have hbndA' : ∀ l ∈ (0 : Nat) :: restA,
      0 ≤ LA + (l : Int) - ((0 : Nat) : Int) ∧
      LA + (l : Int) - ((0 : Nat) : Int) < (styles.length : Int) := by
    intro l hml
    have h1 := hbndA l hml
    have h2 : (0 : Int) ≤ (l : Int) := Int.ofNat_nonneg l
    exact ⟨by omega, by omega⟩
  have hbndB' : ∀ l ∈ kB :: restB,
      0 ≤ LB + (l : Int) - (kB : Int) ∧
      LB + (l : Int) - (kB : Int) < (styles.length : Int) := fun l hml =>
    ⟨(hbndB l hml).2, (hbndB l hml).1⟩
  have hA := load_and_shift fnA LA hnd hheadA hflA hdescA hbndA'
  have hB := load_and_shift fnB LB hnd hheadB hflB hdescB hbndB'
  obtain ⟨hloadA, hshA, _⟩ := hA
  obtain ⟨hloadB, hshB, _⟩ := hB
  -- the second fragment is nonempty and starts with a non-title line
  obtain ⟨b, bs, rfl⟩ : ∃ (b : Line) (bs : List Line), linesB = b :: bs := by
    cases linesB with
    | nil => simp [fragLevels, fragLevelsAux] at hflB
    | cons b bs => exact ⟨b, bs, rfl⟩
  have htb : isTitleLine styles b = false := hheadB b (by simp)
  have hdetb : ∀ q : Option Line, detectLine styles q b = false := by
    intro q
    simp [detectLine, htb]
  have hadjB : adjustFrag styles LB kB none (b :: bs) =
      b :: adjustFrag styles LB kB (some b) bs := by
    simp [adjustFrag, hdetb none]
  -- heading levels compose across the seam
  have hcomp : fragLevels styles (adjustFrag styles LA 0 none linesA ++
      adjustFrag styles LB kB none (b :: bs)) =
      fragLevels styles (adjustFrag styles LA 0 none linesA) ++
      fragLevels styles (adjustFrag styles LB kB none (b :: bs)) := by
    rw [hadjB]
    rw [fragLevels, fragLevelsAux_append styles _ none b _ htb]
    rw [show fragLevels styles (b :: adjustFrag styles LB kB (some b) bs) =
        fragLevelsAux styles (some b)
          (adjustFrag styles LB kB (some b) bs) from by
      simp [fragLevels, fragLevelsAux, hdetb none]]
    rfl
  refine ⟨hloadA, hloadB, joinLines_append _ _, ?_, ?_, ?_⟩
  · have hfun : (fun l : Nat => (LA + (l : Int) - ((0 : Nat) : Int)).toNat) =
        (fun l : Nat => (LA + (l : Int)).toNat) := by
      funext l
      omega
    rw [hcomp, hshA, hshB, hfun]
  · rw [List.map_cons]
    have : LB + (kB : Int) - (kB : Int) = LB := by omega
    simp [this]
  · intro x hx
    have hxmem : x ∈ ((0 : Nat) :: restA).map
        (fun l : Nat => (LA + (l : Int)).toNat) := getLast?_mem hx
    obtain ⟨l, _, rfl⟩ := List.mem_map.mp hxmem
    have h0 : (0 : Int) ≤ (l : Int) := Int.ofNat_nonneg l
    omega

/-- C10 counterexample: two individually valid fragments, resolved by
`get_rst` from the level-keyed mapping `{1: "a", 2: "b"}` (the second one
level deeper than the first, as the descent rule allows).  Fragment "a"
starts at local level 1 (the warning case), so after normalization to level 1
it ends with a heading at level 0; fragment "b" normalized to level 2 starts
at level 2.  The concatenation's heading levels are `[1, 0, 2]`: the seam
jumps from 0 to 2, an invalid heading sequence. -/
theorem c10_counterexample :
    get_rst
      [("a", [['t', 't', 't'], ['-', '-', '-'], ['t', '2'], ['=', '=', '='],
              [], []]),
       ("b", [['s', 's', 's'], ['=', '=', '='], [], []])]
      ['=', '-', '~', '+'] true 1 (.dict [(1, .str "a"), (2, .str "b")]) 0 =
      .ok (joinLines [['t', 't', 't'], ['-', '-', '-'], ['t', '2'],
                      ['=', '=', '='], [], []] ++
           joinLines [['s', 's', 's'], ['~', '~', '~'], [], []]) ∧
    fragLevels ['=', '-', '~', '+']
      (splitLines
        (joinLines [['t', 't', 't'], ['-', '-', '-'], ['t', '2'],
                    ['=', '=', '='], [], []] ++
         joinLines [['s', 's', 's'], ['~', '~', '~'], [], []])) = [1, 0, 2] ∧
    descentOKb 1 [1, 0, 2] = false := by
  decide

/-- C10 witness: fragment "a" with heading levels `[0, 1]` at target 0 and
fragment "b" with heading level `[0]` at target 1 = 0 + 1 concatenate with a
valid seam. -/
theorem c10_seam_safety_witness :
    descentOKb 0 [0, 1] = true ∧
    (load_with_adjusted_titles "a"
      [['t', 't', 't'], ['=', '=', '='], ['t', '2'], ['-', '-', '-'], [], []]
      0 ['=', '-', '~', '+'] =
      .ok (joinLines (adjustFrag ['=', '-', '~', '+'] 0 0 none
        [['t', 't', 't'], ['=', '=', '='], ['t', '2'], ['-', '-', '-'],
         [], []])) ∧
     load_with_adjusted_titles "b"
      [['s', 's', 's'], ['=', '=', '='], [], []] 1 ['=', '-', '~', '+'] =
      .ok (joinLines (adjustFrag ['=', '-', '~', '+'] 1 0 none
        [['s', 's', 's'], ['=', '=', '='], [], []])) ∧
     joinLines (adjustFrag ['=', '-', '~', '+'] 0 0 none
        [['t', 't', 't'], ['=', '=', '='], ['t', '2'], ['-', '-', '-'],
         [], []]) ++
       joinLines (adjustFrag ['=', '-', '~', '+'] 1 0 none
        [['s', 's', 's'], ['=', '=', '='], [], []]) =
       joinLines (adjustFrag ['=', '-', '~', '+'] 0 0 none
        [['t', 't', 't'], ['=', '=', '='], ['t', '2'], ['-', '-', '-'],
         [], []] ++
        adjustFrag ['=', '-', '~', '+'] 1 0 none
        [['s', 's', 's'], ['=', '=', '='], [], []]) ∧
     fragLevels ['=', '-', '~', '+']
       (adjustFrag ['=', '-', '~', '+'] 0 0 none
         [['t', 't', 't'], ['=', '=', '='], ['t', '2'], ['-', '-', '-'],
          [], []] ++
        adjustFrag ['=', '-', '~', '+'] 1 0 none
         [['s', 's', 's'], ['=', '=', '='], [], []]) =
       ([0, 1].map (fun l : Nat => ((0 : Int) + (l : Int)).toNat)) ++
       ([0].map (fun l : Nat =>
         ((1 : Int) + (l : Int) - (((0 : Nat)) : Int)).toNat)) ∧
     (([0].map (fun l : Nat =>
         ((1 : Int) + (l : Int) - (((0 : Nat)) : Int)).toNat)).head? =
       some (1 : Int).toNat) ∧
     (∀ x ∈ (([0, 1] : List Nat).map
         (fun l : Nat => ((0 : Int) + (l : Int)).toNat)).getLast?,
       (1 : Int).toNat ≤ x + 1)) :=
  ⟨by decide,
   c10_seam_safety "a" "b" 0 1 (by decide) (by decide) (by decide)
     (by decide) (by decide) (by decide) (by decide) (by decide) (by decide)
     (by decide) (by decide)⟩

end Gendoc
